import Mathlib

/-!
Verification of the token lifecycle subsystem of the email-validator
repository.  Instants are nanoseconds as `Nat`, with `0` playing the role of
Go's zero `time.Time` (the value `IsZero` tests for); durations are `Int`
nanoseconds, matching Go's `time.Duration`.  Go maps (`sync.Map`, Redis
key spaces) are modelled as association lists; fallible operations return the
new state together with an `Option`/`Except` error, mirroring the Go return
values.  Context cancellation is not modelled: every operation is taken at a
live context, so the initial `ctx.Err()` early returns never fire.
-/

set_option autoImplicit false

/-- Association-list lookup: first entry with the given key. -/
def alLookup {α β : Type} [DecidableEq α] : List (α × β) → α → Option β
  | [], _ => none
  | (k, v) :: rest, a => if k = a then some v else alLookup rest a

/-- Association-list store: replace the first entry with the given key, or
append a new entry.  Models `sync.Map.Store` / Redis `SET`. -/
def alInsert {α β : Type} [DecidableEq α] : List (α × β) → α → β → List (α × β)
  | [], a, b => [(a, b)]
  | (k, v) :: rest, a, b =>
    if k = a then (a, b) :: rest else (k, v) :: alInsert rest a b

/-- Association-list erase: drop every entry with the given key.  Models
`sync.Map.Delete` / Redis `DEL`. -/
def alErase {α β : Type} [DecidableEq α] : List (α × β) → α → List (α × β)
  | [], _ => []
  | (k, v) :: rest, a =>
    if k = a then alErase rest a else (k, v) :: alErase rest a

/-- `Type` in the Go source: the token family. `TypeLink = 0`, `TypeCode = 1`. -/
inductive TokenType : Type
  | link
  | code
deriving DecidableEq

/-- The integer value of the Go `Type` constant (`iota`: link 0, code 1). -/
def TokenType.toIndex : TokenType → Nat
  | .link => 0
  | .code => 1

/-- The `Token` struct: value, type, creation instant, expiry instant and the
owning validation ID. -/
structure Token : Type where
  value : String
  type : TokenType
  createdAt : Nat
  validUntil : Nat
  validationID : String
deriving DecidableEq

/-- `New(value, tokenType, validationID, ttl)`, with the call instant `now`
made explicit: `CreatedAt = now`, `ValidUntil = now.Add(ttl)`. -/
def Token.new (value : String) (tokenType : TokenType) (validationID : String)
    (now : Nat) (ttl : Int) : Token :=
  { value := value
    type := tokenType
    createdAt := now
    validUntil := ((now : Int) + ttl).toNat
    validationID := validationID }

/-- `IsExpired`: `time.Now().After(t.ValidUntil)`, i.e. strictly after. -/
def Token.isExpired (t : Token) (now : Nat) : Bool :=
  now > t.validUntil

/-- The error kinds of the package: the sentinel errors plus the structured
`TokenExpiredError{TokenValue, TokenType, ExpiredAt}`. -/
inductive StorageError : Type
  | tokenNotFound
  | invalidToken
  | invalidTokenType
  | invalidTokenKeyType
  | tokenNil
  | emptyTokenValue
  | emptyValidationID
  | invalidTTL
  | expired (tokenValue : String) (tokenType : TokenType) (expiredAt : Nat)
deriving DecidableEq

/-- `Validate` (package `token`, used by both storage/memory and
storage/redis `Store`): rejects a nil token, an empty value, an empty
validation ID, and a zero `ValidUntil`; it does not look at the clock. -/
def Validate : Option Token → Option StorageError
  | none => some .tokenNil
  | some t =>
    if t.value = "" then some .emptyTokenValue
    else if t.validationID = "" then some .emptyValidationID
    else if t.validUntil = 0 then some .invalidToken
    else none

/-- `validateToken` (the package-token `MemoryStorage` helper): like
`Validate` but deliberately without any `ValidUntil` check. -/
def validateToken : Option Token → Option StorageError
  | none => some .tokenNil
  | some t =>
    if t.value = "" then some .emptyTokenValue
    else if t.validationID = "" then some .emptyValidationID
    else none

/-- `tokenKey`: the composite `(value, type)` primary key. -/
structure TokenKey : Type where
  value : String
  typ : TokenType
deriving DecidableEq

/-- The in-memory storage state: the primary `tokens` map and the
`validationID` owner index (owner, list of keys), both `sync.Map`s. -/
structure MemState : Type where
  tokens : List (TokenKey × Token)
  validationID : List (String × List TokenKey)
deriving DecidableEq

/-- A freshly constructed in-memory storage. -/
def MemState.empty : MemState := ⟨[], []⟩

/-- `storage/memory.Storage.Store`: validate, store under the composite key,
then append the key to the owner index entry (duplicates are not checked). -/
def Memory.store (s : MemState) (ot : Option Token) : MemState × Option StorageError :=
  match Validate ot, ot with
  | some e, _ => (s, some e)
  | none, none => (s, some .tokenNil)
  | none, some t =>
    let key : TokenKey := ⟨t.value, t.type⟩
    let tokens := alInsert s.tokens key t
    let keys := ((alLookup s.validationID t.validationID).getD []) ++ [key]
    (⟨tokens, alInsert s.validationID t.validationID keys⟩, none)

/-- `storage/memory.Storage.Retrieve`: not-found error when absent; when the
token is expired, delete it from `tokens` (the owner index is untouched) and
return a `TokenExpiredError` whose `TokenType` field is left at its zero
value `TypeLink` (the composite literal at memory.go:111 omits it). -/
def Memory.retrieve (s : MemState) (now : Nat) (tokenValue : String)
    (tokenType : TokenType) : MemState × Except StorageError Token :=
  let key : TokenKey := ⟨tokenValue, tokenType⟩
  match alLookup s.tokens key with
  | none => (s, .error .tokenNotFound)
  | some t =>
    if t.isExpired now then
      (⟨alErase s.tokens key, s.validationID⟩,
       .error (.expired tokenValue .link t.validUntil))
    else (s, .ok t)

/-- `storage/memory.Storage.Delete`: no-op on an absent key; otherwise remove
the token and filter its key out of the owner's index entry, dropping the
entry when it becomes empty. -/
def Memory.delete (s : MemState) (tokenValue : String) (tokenType : TokenType) :
    MemState × Option StorageError :=
  let key : TokenKey := ⟨tokenValue, tokenType⟩
  match alLookup s.tokens key with
  | none => (s, none)
  | some t =>
    let tokens := alErase s.tokens key
    match alLookup s.validationID t.validationID with
    | none => (⟨tokens, s.validationID⟩, none)
    | some keys =>
      let newKeys := keys.filter fun k =>
        decide (k.value ≠ key.value) || decide (k.typ ≠ key.typ)
      if newKeys.length > 0 then
        (⟨tokens, alInsert s.validationID t.validationID newKeys⟩, none)
      else
        (⟨tokens, alErase s.validationID t.validationID⟩, none)

/-- `storage/memory.Storage.DeleteByValidationID`: an empty owner is rejected
with `ErrEmptyValidationID`; otherwise every key in the owner's index entry
is deleted from `tokens` and the entry itself is removed. -/
def Memory.deleteByValidationID (s : MemState) (validationID : String) :
    MemState × Option StorageError :=
  if validationID = "" then (s, some .emptyValidationID)
  else
    match alLookup s.validationID validationID with
    | none => (s, none)
    | some keys =>
      let tokens := keys.foldl (fun ts k => alErase ts k) s.tokens
      (⟨tokens, alErase s.validationID validationID⟩, none)

/-- The package-token `MemoryStorage.Store`: identical to the storage/memory
version except that it validates with `validateToken` (no `ValidUntil`
check at all). -/
def MemoryStorage.store (s : MemState) (ot : Option Token) :
    MemState × Option StorageError :=
  match validateToken ot, ot with
  | some e, _ => (s, some e)
  | none, none => (s, some .tokenNil)
  | none, some t =>
    let key : TokenKey := ⟨t.value, t.type⟩
    let tokens := alInsert s.tokens key t
    let keys := ((alLookup s.validationID t.validationID).getD []) ++ [key]
    (⟨tokens, alInsert s.validationID t.validationID keys⟩, none)

/-- The package-token `MemoryStorage.Retrieve`: as storage/memory, but the
expired error carries the stored token's value and type. -/
def MemoryStorage.retrieve (s : MemState) (now : Nat) (tokenValue : String)
    (tokenType : TokenType) : MemState × Except StorageError Token :=
  let key : TokenKey := ⟨tokenValue, tokenType⟩
  match alLookup s.tokens key with
  | none => (s, .error .tokenNotFound)
  | some t =>
    if t.isExpired now then
      (⟨alErase s.tokens key, s.validationID⟩,
       .error (.expired t.value t.type t.validUntil))
    else (s, .ok t)

/-- The package-token `MemoryStorage.DeleteByValidationID`: unlike every
other implementation it performs no empty-owner check. -/
def MemoryStorage.deleteByValidationID (s : MemState) (validationID : String) :
    MemState × Option StorageError :=
  match alLookup s.validationID validationID with
  | none => (s, none)
  | some keys =>
    let tokens := keys.foldl (fun ts k => alErase ts k) s.tokens
    (⟨tokens, alErase s.validationID validationID⟩, none)

/-- The Redis composite key `token:<value>:<type>`. -/
def tokenKeyString (value : String) (typ : TokenType) : String :=
  "token:" ++ value ++ ":" ++ toString typ.toIndex

/-- The Redis owner-index key `validation:<validationID>`. -/
def validationKeyString (validationID : String) : String :=
  "validation:" ++ validationID

/-- The Redis backend state: string keys holding serialized token records
with an absolute expiry instant, and set keys holding owner-index membership
with an optional expiry (`none` = no expiry set yet).  JSON serialization
round-trips the record, so the record itself is stored. -/
structure RedisState : Type where
  strings : List (String × (Token × Nat))
  sets : List (String × (List String × Option Nat))
deriving DecidableEq

/-- An empty Redis database. -/
def RedisState.empty : RedisState := ⟨[], []⟩

/-- A string key is gone once the clock passes its expiry instant. -/
def Redis.stringLive (now exp : Nat) : Bool := !(now > exp)

/-- A set key with no expiry persists; otherwise as for string keys. -/
def Redis.setLive (now : Nat) : Option Nat → Bool
  | none => true
  | some exp => !(now > exp)

/-- `GET`: an expired or absent key reads as nil. -/
def Redis.rGet (s : RedisState) (now : Nat) (key : String) : Option Token :=
  match alLookup s.strings key with
  | none => none
  | some (t, exp) => if Redis.stringLive now exp then some t else none

/-- `SET key value EX ttl`: store with an absolute expiry instant. -/
def Redis.rSetEx (s : RedisState) (key : String) (t : Token) (expireAt : Nat) :
    RedisState :=
  ⟨alInsert s.strings key (t, expireAt), s.sets⟩

/-- `DEL` on a string key. -/
def Redis.rDelString (s : RedisState) (key : String) : RedisState :=
  ⟨alErase s.strings key, s.sets⟩

/-- `SMEMBERS`: an expired or absent set reads as empty. -/
def Redis.rSMembers (s : RedisState) (now : Nat) (key : String) : List String :=
  match alLookup s.sets key with
  | none => []
  | some (ms, exp) => if Redis.setLive now exp then ms else []

/-- `SADD`: append the member to a live set (no duplicates), or start a
fresh persistent set when the key is absent or already expired. -/
def Redis.rSAdd (s : RedisState) (now : Nat) (key member : String) : RedisState :=
  match alLookup s.sets key with
  | some (ms, exp) =>
    if Redis.setLive now exp then
      if member ∈ ms then s
      else ⟨s.strings, alInsert s.sets key (ms ++ [member], exp)⟩
    else ⟨s.strings, alInsert s.sets key ([member], none)⟩
  | none => ⟨s.strings, alInsert s.sets key ([member], none)⟩

/-- `EXPIREAT` on a set key: no-op on an absent or already expired key. -/
def Redis.rExpireAtSet (s : RedisState) (now : Nat) (key : String)
    (expireAt : Nat) : RedisState :=
  match alLookup s.sets key with
  | some (ms, exp) =>
    if Redis.setLive now exp then ⟨s.strings, alInsert s.sets key (ms, some expireAt)⟩
    else s
  | none => s

/-- `SREM`: remove the member from a live set; Redis drops a set key that
becomes empty. -/
def Redis.rSRem (s : RedisState) (now : Nat) (key member : String) : RedisState :=
  match alLookup s.sets key with
  | some (ms, exp) =>
    if Redis.setLive now exp then
      let ms₁ := ms.filter fun m => decide (m ≠ member)
      if ms₁ = [] then ⟨s.strings, alErase s.sets key⟩
      else ⟨s.strings, alInsert s.sets key (ms₁, exp)⟩
    else s
  | none => s

/-- `DEL` on a set key. -/
def Redis.rDelSet (s : RedisState) (key : String) : RedisState :=
  ⟨s.strings, alErase s.sets key⟩

/-- `storage/redis.Storage.Store`: validate, serialize, reject a `ValidUntil`
strictly before now with `ErrInvalidToken`, then `SET` the record with
relative TTL `ValidUntil − now` (so it expires at `ValidUntil`), `SADD` the
composite key into the owner set, and `EXPIREAT` the owner set to this
token's `ValidUntil`. -/
def Redis.store (s : RedisState) (now : Nat) (ot : Option Token) :
    RedisState × Option StorageError :=
  match Validate ot, ot with
  | some e, _ => (s, some e)
  | none, none => (s, some .tokenNil)
  | none, some t =>
    if t.validUntil < now then (s, some .invalidToken)
    else
      let key := tokenKeyString t.value t.type
      let s₁ := Redis.rSetEx s key t t.validUntil
      let vkey := validationKeyString t.validationID
      let s₂ := Redis.rSAdd s₁ now vkey key
      (Redis.rExpireAtSet s₂ now vkey t.validUntil, none)

/-- `storage/redis.Storage.Retrieve`: nil `GET` is not-found; a record read
back whose `ValidUntil` has passed is deleted and reported expired (with the
requested value and type). -/
def Redis.retrieve (s : RedisState) (now : Nat) (tokenValue : String)
    (tokenType : TokenType) : RedisState × Except StorageError Token :=
  let key := tokenKeyString tokenValue tokenType
  match Redis.rGet s now key with
  | none => (s, .error .tokenNotFound)
  | some t =>
    if t.isExpired now then
      (Redis.rDelString s key, .error (.expired tokenValue tokenType t.validUntil))
    else (s, .ok t)

/-- `storage/redis.Storage.Delete`: nil `GET` is a no-op; otherwise `SREM`
the key from its owner set and `DEL` the record. -/
def Redis.delete (s : RedisState) (now : Nat) (tokenValue : String)
    (tokenType : TokenType) : RedisState × Option StorageError :=
  let key := tokenKeyString tokenValue tokenType
  match Redis.rGet s now key with
  | none => (s, none)
  | some t =>
    let s₁ := Redis.rSRem s now (validationKeyString t.validationID) key
    (Redis.rDelString s₁ key, none)

/-- `storage/redis.Storage.DeleteByValidationID`: reject the empty owner,
read the owner set, and delete every member key plus the set itself in one
pipeline. -/
def Redis.deleteByValidationID (s : RedisState) (now : Nat)
    (validationID : String) : RedisState × Option StorageError :=
  if validationID = "" then (s, some .emptyValidationID)
  else
    let vkey := validationKeyString validationID
    let keys := Redis.rSMembers s now vkey
    if keys = [] then (s, none)
    else
      let s₁ := keys.foldl (fun st k => Redis.rDelString st k) s
      (Redis.rDelSet s₁ vkey, none)

/-- The package-token `RedisStorage.DeleteByValidationID`: same contract as
the storage/redis version (empty-owner check, `SMEMBERS`, pipelined `DEL`). -/
def RedisStorage.deleteByValidationID (s : RedisState) (now : Nat)
    (validationID : String) : RedisState × Option StorageError :=
  if validationID = "" then (s, some .emptyValidationID)
  else
    let vkey := validationKeyString validationID
    let keys := Redis.rSMembers s now vkey
    if keys = [] then (s, none)
    else
      let s₁ := keys.foldl (fun st k => Redis.rDelString st k) s
      (Redis.rDelSet s₁ vkey, none)

/-- One hour in nanoseconds (`time.Hour`). -/
def hourNs : Int := 3600000000000

/-- One minute in nanoseconds (`time.Minute`). -/
def minuteNs : Int := 60000000000

/-- The `Manager` configuration relevant here: the per-kind default TTLs. -/
structure Manager : Type where
  linkTokenTTL : Int
  codeTokenTTL : Int

/-- `NewManager` without TTL options: LINK 24h, CODE 10m. -/
def NewManager : Manager :=
  { linkTokenTTL := 24 * hourNs, codeTokenTTL := 10 * minuteNs }

/-- `Manager.createToken` over the in-memory backend, with the call instant
and the generated random value made explicit: reject an empty validation ID
and a non-positive TTL, build the token with `New`, and store it. -/
def Manager.createToken (m : Manager) (s : MemState) (now : Nat)
    (genValue : String) (tokenType : TokenType) (validationID : String)
    (ttl : Int) : MemState × Except StorageError Token :=
  if validationID = "" then (s, .error .emptyValidationID)
  else if ttl ≤ 0 then (s, .error .invalidTTL)
  else
    let t := Token.new genValue tokenType validationID now ttl
    match Memory.store s (some t) with
    | (s₁, none) => (s₁, .ok t)
    | (s₁, some e) => (s₁, .error e)

/-- `Manager.CreateLinkToken`: a LINK token with the manager's link TTL. -/
def Manager.createLinkToken (m : Manager) (s : MemState) (now : Nat)
    (genValue : String) (validationID : String) :
    MemState × Except StorageError Token :=
  m.createToken s now genValue .link validationID m.linkTokenTTL

/-- `Manager.CreateCodeToken`: a CODE token with the manager's code TTL. -/
def Manager.createCodeToken (m : Manager) (s : MemState) (now : Nat)
    (genValue : String) (validationID : String) :
    MemState × Except StorageError Token :=
  m.createToken s now genValue .code validationID m.codeTokenTTL

/-- `Manager.CreateTokenWithTTL`: a token of the given kind and TTL. -/
def Manager.createTokenWithTTL (m : Manager) (s : MemState) (now : Nat)
    (genValue : String) (tokenType : TokenType) (validationID : String)
    (ttl : Int) : MemState × Except StorageError Token :=
  m.createToken s now genValue tokenType validationID ttl

/-- The `Generator` configuration: lengths and the code charset. -/
structure Generator : Type where
  linkTokenLength : Int
  codeTokenLength : Int
  codeCharset : String
deriving DecidableEq

/-- `NewGenerator`: the secure defaults (32, 4, decimal digits). -/
def NewGenerator : Generator :=
  { linkTokenLength := 32, codeTokenLength := 4, codeCharset := "0123456789" }

/-- `WithLinkTokenLength`. -/
def Generator.withLinkTokenLength (g : Generator) (length : Int) : Generator :=
  { g with linkTokenLength := length }

/-- `WithCodeTokenLength`. -/
def Generator.withCodeTokenLength (g : Generator) (length : Int) : Generator :=
  { g with codeTokenLength := length }

/-- `WithCodeCharset`: an empty charset argument leaves the generator
unchanged. -/
def Generator.withCodeCharset (g : Generator) (charset : String) : Generator :=
  if charset ≠ "" then { g with codeCharset := charset } else g

/-- `GenerateCodeToken`, with the outcome of `rand.Read` passed explicitly
(one byte per output character): each byte is mapped to
`codeCharset[int(b) % charsetLength]`.  The `none` result models the Go
runtime division-by-zero panic that the modulo would raise on an empty
charset. -/
def Generator.generateCodeToken (g : Generator) (randBytes : List Nat) :
    Option String :=
  let cs := g.codeCharset.data
  if cs.length = 0 then none
  else some (String.mk (randBytes.map fun b => cs.getD (b % cs.length) default))

/-- A functional option passed to the generator after construction. -/
inductive GenOption : Type
  | withLinkTokenLength (length : Int)
  | withCodeTokenLength (length : Int)
  | withCodeCharset (charset : String)

/-- Apply one functional option. -/
def Generator.applyOption (g : Generator) : GenOption → Generator
  | .withLinkTokenLength n => g.withLinkTokenLength n
  | .withCodeTokenLength n => g.withCodeTokenLength n
  | .withCodeCharset cs => g.withCodeCharset cs

/-- Apply a sequence of functional options left to right. -/
def Generator.applyOptions (g : Generator) : List GenOption → Generator
  | [] => g
  | o :: os => (g.applyOption o).applyOptions os

/-- One call against the in-memory storage. -/
inductive MemOp : Type
  | store (t : Option Token)
  | retrieve (now : Nat) (tokenValue : String) (tokenType : TokenType)
  | delete (tokenValue : String) (tokenType : TokenType)
  | deleteByValidationID (validationID : String)

/-- The state after one call (results discarded). -/
def MemState.applyOp (s : MemState) : MemOp → MemState
  | .store t => (Memory.store s t).1
  | .retrieve now v k => (Memory.retrieve s now v k).1
  | .delete v k => (Memory.delete s v k).1
  | .deleteByValidationID validationID =>
    (Memory.deleteByValidationID s validationID).1

/-- The state after a sequence of calls. -/
def MemState.run (s : MemState) : List MemOp → MemState
  | [] => s
  | o :: os => MemState.run (s.applyOp o) os

/-- Boolean test on the content of an `Option`: `false` on `none`. -/
def optHolds {γ : Type} (o : Option γ) (f : γ → Bool) : Bool :=
  match o with
  | some x => f x
  | none => false

/-- The side conditions under which the index invariant is preserved: a
store only of a `(value, type)` key not currently in the token map, and no
retrieval that hits an expired token. -/
def MemState.okOp (s : MemState) : MemOp → Bool
  | .store none => true
  | .store (some t) => (alLookup s.tokens ⟨t.value, t.type⟩).isNone
  | .retrieve now v k =>
    !(optHolds (alLookup s.tokens ⟨v, k⟩) fun t => t.isExpired now)
  | .delete _ _ => true
  | .deleteByValidationID _ => true

/-- The side conditions hold at every step of the sequence. -/
def MemState.okSeq (s : MemState) : List MemOp → Bool
  | [] => true
  | o :: os => s.okOp o && MemState.okSeq (s.applyOp o) os

/-- Every key in every index entry maps to a token owned by that entry's
validation ID, and index entries have no duplicate keys. -/
def MemState.indexSoundB (s : MemState) : Bool :=
  s.validationID.all fun p =>
    (p.2.all fun k =>
      optHolds (alLookup s.tokens k) fun t => decide (t.validationID = p.1)) &&
    decide p.2.Nodup

/-- Every stored token's key appears in its owner's index entry. -/
def MemState.tokensIndexedB (s : MemState) : Bool :=
  s.tokens.all fun q =>
    optHolds (alLookup s.validationID q.2.validationID) fun ks =>
      decide (q.1 ∈ ks)

/-- The full inductive invariant tying the owner index to the token map. -/
def MemState.invB (s : MemState) : Bool :=
  decide (s.tokens.map Prod.fst).Nodup &&
  decide (s.validationID.map Prod.fst).Nodup &&
  s.indexSoundB && s.tokensIndexedB

/-- The claim-facing property: every key recorded in the owner index
corresponds to a token present in the token map, with no duplicate keys. -/
def MemState.indexConsistentB (s : MemState) : Bool :=
  s.validationID.all fun p =>
    (p.2.all fun k => (alLookup s.tokens k).isSome) && decide p.2.Nodup

/-! ### Association-list lemmas -/

section AssocList

variable {α β : Type} [DecidableEq α]

theorem alLookup_alInsert_self (l : List (α × β)) (a : α) (b : β) :
    alLookup (alInsert l a b) a = some b := by
  induction l with
  | nil => simp [alInsert, alLookup]
  | cons p rest ih =>
    obtain ⟨k, v⟩ := p
    by_cases h : k = a
    · simp [alInsert, h, alLookup]
    · simp [alInsert, h, alLookup, ih]

theorem alLookup_alInsert_ne (l : List (α × β)) (a b : α) (c : β) (h : b ≠ a) :
    alLookup (alInsert l a c) b = alLookup l b := by
  induction l with
  | nil => simp [alInsert, alLookup, Ne.symm h]
  | cons p rest ih =>
    obtain ⟨k, v⟩ := p
    by_cases hk : k = a
    · subst hk
      simp [alInsert, alLookup, Ne.symm h]
    · simp [alInsert, hk, alLookup, ih]

theorem alLookup_alErase_self (l : List (α × β)) (a : α) :
    alLookup (alErase l a) a = none := by
  induction l with
  | nil => simp [alErase, alLookup]
  | cons p rest ih =>
    obtain ⟨k, v⟩ := p
    by_cases h : k = a
    · simp [alErase, h, ih]
    · simp [alErase, alLookup, h, ih]

theorem alLookup_alErase_ne (l : List (α × β)) (a b : α) (h : b ≠ a) :
    alLookup (alErase l a) b = alLookup l b := by
  induction l with
  | nil => simp [alErase]
  | cons p rest ih =>
    obtain ⟨k, v⟩ := p
    by_cases hk : k = a
    · subst hk
      simp [alErase, alLookup, Ne.symm h, ih]
    · simp [alErase, alLookup, hk, ih]

theorem mem_alErase (l : List (α × β)) (a : α) (p : α × β) :
    p ∈ alErase l a ↔ p ∈ l ∧ p.1 ≠ a := by
  induction l with
  | nil => simp [alErase]
  | cons q rest ih =>
    obtain ⟨k, v⟩ := q
    by_cases hk : k = a
    · simp only [alErase, if_pos hk, ih, List.mem_cons]
      constructor
      · rintro ⟨hm, hne⟩
        exact ⟨Or.inr hm, hne⟩
      · rintro ⟨hm | hm, hne⟩
        · exact absurd ((congrArg Prod.fst hm).trans hk) hne
        · exact ⟨hm, hne⟩
    · simp only [alErase, if_neg hk, List.mem_cons, ih]
      constructor
      · rintro (rfl | ⟨hm, hne⟩)
        · exact ⟨Or.inl rfl, hk⟩
        · exact ⟨Or.inr hm, hne⟩
      · rintro ⟨rfl | hm, hne⟩
        · exact Or.inl rfl
        · exact Or.inr ⟨hm, hne⟩

theorem map_fst_alErase (l : List (α × β)) (a : α) :
    (alErase l a).map Prod.fst = (l.map Prod.fst).filter fun x => decide (x ≠ a) := by
  induction l with
  | nil => simp [alErase]
  | cons q rest ih =>
    obtain ⟨k, v⟩ := q
    by_cases hk : k = a
    · simp [alErase, hk, ih]
    · simp [alErase, hk, ih]

theorem map_fst_alInsert (l : List (α × β)) (a : α) (b : β) :
    (alInsert l a b).map Prod.fst =
      if a ∈ l.map Prod.fst then l.map Prod.fst else l.map Prod.fst ++ [a] := by
  induction l with
  | nil => simp [alInsert]
  | cons q rest ih =>
    obtain ⟨k, v⟩ := q
    by_cases hk : k = a
    · subst hk
      simp [alInsert]
    · simp only [alInsert, if_neg hk, List.map_cons, ih]
      by_cases hm : a ∈ rest.map Prod.fst
      · simp [hm, Ne.symm hk]
      · simp [hm, Ne.symm hk]

theorem alLookup_eq_none_iff (l : List (α × β)) (a : α) :
    alLookup l a = none ↔ a ∉ l.map Prod.fst := by
  induction l with
  | nil => simp [alLookup]
  | cons q rest ih =>
    obtain ⟨k, v⟩ := q
    by_cases hk : k = a
    · simp [alLookup, hk]
    · simp [alLookup, hk, ih, Ne.symm hk]

theorem mem_of_alLookup_eq_some (l : List (α × β)) (a : α) (b : β)
    (h : alLookup l a = some b) : (a, b) ∈ l := by
  induction l with
  | nil => simp [alLookup] at h
  | cons q rest ih =>
    obtain ⟨k, v⟩ := q
    by_cases hk : k = a
    · subst hk
      rw [alLookup, if_pos rfl, Option.some.injEq] at h
      subst h
      exact List.mem_cons_self _ _
    · rw [alLookup, if_neg hk] at h
      exact List.mem_cons_of_mem _ (ih h)

theorem alLookup_eq_some_of_mem (l : List (α × β)) (a : α) (b : β)
    (hnd : (l.map Prod.fst).Nodup) (hm : (a, b) ∈ l) : alLookup l a = some b := by
  induction l with
  | nil => simp at hm
  | cons q rest ih =>
    obtain ⟨k, v⟩ := q
    simp only [List.map_cons, List.nodup_cons] at hnd
    rcases List.mem_cons.mp hm with hq | hq
    · have h1 : a = k := congrArg Prod.fst hq
      have h2 : b = v := congrArg Prod.snd hq
      subst h1
      subst h2
      simp [alLookup]
    · have hka : k ≠ a := by
        rintro rfl
        exact hnd.1 (List.mem_map.mpr ⟨(k, b), hq, rfl⟩)
      rw [alLookup, if_neg hka]
      exact ih hnd.2 hq

theorem mem_alInsert_iff (l : List (α × β)) (a : α) (b : β) (p : α × β)
    (hnd : (l.map Prod.fst).Nodup) :
    p ∈ alInsert l a b ↔ p = (a, b) ∨ (p ∈ l ∧ p.1 ≠ a) := by
  induction l with
  | nil =>
    simp only [alInsert, List.mem_singleton, List.not_mem_nil, false_and, or_false]
  | cons q rest ih =>
    obtain ⟨k, v⟩ := q
    simp only [List.map_cons, List.nodup_cons] at hnd
    by_cases hk : k = a
    · subst hk
      have hout : ∀ c : β, (k, c) ∉ rest := by
        intro c hc
        exact hnd.1 (List.mem_map.mpr ⟨(k, c), hc, rfl⟩)
      rw [alInsert, if_pos rfl]
      simp only [List.mem_cons]
      constructor
      · rintro (rfl | hm)
        · exact Or.inl rfl
        · refine Or.inr ⟨Or.inr hm, ?_⟩
          rintro hfst
          obtain ⟨x, y⟩ := p
          simp only at hfst
          subst hfst
          exact hout y hm
      · rintro (rfl | ⟨hm | hm, hne⟩)
        · exact Or.inl rfl
        · exact absurd (congrArg Prod.fst hm) hne
        · exact Or.inr hm
    · rw [alInsert, if_neg hk]
      simp only [List.mem_cons, ih hnd.2]
      constructor
      · rintro (rfl | rfl | ⟨hm, hne⟩)
        · exact Or.inr ⟨Or.inl rfl, hk⟩
        · exact Or.inl rfl
        · exact Or.inr ⟨Or.inr hm, hne⟩
      · rintro (rfl | ⟨rfl | hm, hne⟩)
        · exact Or.inr (Or.inl rfl)
        · exact Or.inl rfl
        · exact Or.inr (Or.inr ⟨hm, hne⟩)

theorem alLookup_foldl_alErase (ks : List α) (l : List (α × β)) (a : α) :
    alLookup (ks.foldl (fun acc k => alErase acc k) l) a =
      if a ∈ ks then none else alLookup l a := by
  induction ks generalizing l with
  | nil => simp
  | cons k ks ih =>
    simp only [List.foldl_cons, ih, List.mem_cons]
    by_cases hk : a = k
    · subst hk
      simp [alLookup_alErase_self]
    · by_cases hm : a ∈ ks
      · simp [hm, hk]
      · simp [hm, hk, alLookup_alErase_ne _ _ _ hk]

theorem mem_foldl_alErase (ks : List α) (l : List (α × β)) (p : α × β) :
    p ∈ ks.foldl (fun acc k => alErase acc k) l ↔ p ∈ l ∧ p.1 ∉ ks := by
  induction ks generalizing l with
  | nil => simp
  | cons k ks ih =>
    simp only [List.foldl_cons, ih, mem_alErase, List.mem_cons]
    constructor
    · rintro ⟨⟨hm, hne⟩, hnm⟩
      refine ⟨hm, ?_⟩
      rintro (h | h)
      · exact hne h
      · exact hnm h
    · rintro ⟨hm, hnm⟩
      exact ⟨⟨hm, fun h => hnm (Or.inl h)⟩, fun h => hnm (Or.inr h)⟩

theorem map_fst_nodup_foldl_alErase (ks : List α) (l : List (α × β))
    (hnd : (l.map Prod.fst).Nodup) :
    ((ks.foldl (fun acc k => alErase acc k) l).map Prod.fst).Nodup := by
  induction ks generalizing l with
  | nil => simpa
  | cons k ks ih =>
    simp only [List.foldl_cons]
    exact ih _ ((map_fst_alErase l k).symm ▸ hnd.filter _)

end AssocList

/-! ### The in-memory index invariant -/

theorem optHolds_eq_true_iff {γ : Type} (o : Option γ) (f : γ → Bool) :
    optHolds o f = true ↔ ∃ x, o = some x ∧ f x = true := by
  cases o <;> simp [optHolds]

theorem invB_eq_true_iff (s : MemState) :
    s.invB = true ↔
      ((s.tokens.map Prod.fst).Nodup ∧
       (s.validationID.map Prod.fst).Nodup ∧
       (∀ p ∈ s.validationID,
         (∀ k ∈ p.2, ∃ t, alLookup s.tokens k = some t ∧ t.validationID = p.1) ∧
         p.2.Nodup) ∧
       (∀ q ∈ s.tokens, ∃ ks,
         alLookup s.validationID q.2.validationID = some ks ∧ q.1 ∈ ks)) := by
  simp only [MemState.invB, MemState.indexSoundB, MemState.tokensIndexedB,
    Bool.and_eq_true, List.all_eq_true, optHolds_eq_true_iff, decide_eq_true_eq,
    and_assoc]

theorem invB_store (s : MemState) (t : Token)
    (hfresh : alLookup s.tokens ⟨t.value, t.type⟩ = none)
    (hinv : s.invB = true) : (Memory.store s (some t)).1.invB = true := by
  rcases (invB_eq_true_iff s).mp hinv with ⟨n1, n2, hS, hT⟩
  cases hval : Validate (some t) with
  | some e => simpa [Memory.store, hval] using hinv
  | none =>
  simp only [Memory.store, hval]
  rw [invB_eq_true_iff]
  have hkey_not : (⟨t.value, t.type⟩ : TokenKey) ∉ s.tokens.map Prod.fst :=
    (alLookup_eq_none_iff _ _).mp hfresh
  have hknotin : ∀ p : String × List TokenKey, p ∈ s.validationID →
      (⟨t.value, t.type⟩ : TokenKey) ∉ p.2 := by
    intro p hp hk
    rcases (hS p hp).1 _ hk with ⟨t', ht', _⟩
    rw [hfresh] at ht'
    cases ht'
  refine ⟨?_, ?_, ?_, ?_⟩
  · rw [map_fst_alInsert, if_neg hkey_not]
    exact ((List.perm_append_singleton _ _).nodup_iff).mpr
      (List.nodup_cons.mpr ⟨hkey_not, n1⟩)
  · rw [map_fst_alInsert]
    by_cases hm : t.validationID ∈ s.validationID.map Prod.fst
    · rw [if_pos hm]
      exact n2
    · rw [if_neg hm]
      exact ((List.perm_append_singleton _ _).nodup_iff).mpr
        (List.nodup_cons.mpr ⟨hm, n2⟩)
  · intro p hp
    rcases (mem_alInsert_iff _ _ _ _ n2).mp hp with rfl | ⟨hm, hne⟩
    · constructor
      · intro k hk
        rcases List.mem_append.mp hk with hk0 | hk1
        · cases hidx : alLookup s.validationID t.validationID with
          | none =>
            rw [hidx] at hk0
            simp at hk0
          | some ks =>
            rw [hidx] at hk0
            simp only [Option.getD_some] at hk0
            rcases (hS _ (mem_of_alLookup_eq_some _ _ _ hidx)).1 k hk0 with
              ⟨t', ht', hvid⟩
            have hkne : k ≠ ⟨t.value, t.type⟩ := by
              rintro rfl
              rw [hfresh] at ht'
              cases ht'
            refine ⟨t', ?_, hvid⟩
            rw [alLookup_alInsert_ne _ _ _ _ hkne]
            exact ht'
        · rw [List.mem_singleton.mp hk1]
          exact ⟨t, alLookup_alInsert_self _ _ _, rfl⟩
      · have h1 : ((alLookup s.validationID t.validationID).getD []).Nodup := by
          cases hidx : alLookup s.validationID t.validationID with
          | none => simp
          | some ks =>
            simp only [Option.getD_some]
            exact (hS _ (mem_of_alLookup_eq_some _ _ _ hidx)).2
        have h2 : (⟨t.value, t.type⟩ : TokenKey) ∉
            (alLookup s.validationID t.validationID).getD [] := by
          cases hidx : alLookup s.validationID t.validationID with
          | none => simp
          | some ks =>
            simp only [Option.getD_some]
            exact hknotin _ (mem_of_alLookup_eq_some _ _ _ hidx)
        exact ((List.perm_append_singleton _ _).nodup_iff).mpr
          (List.nodup_cons.mpr ⟨h2, h1⟩)
    · constructor
      · intro k hk
        rcases (hS _ hm).1 k hk with ⟨t', ht', hvid⟩
        have hkne : k ≠ ⟨t.value, t.type⟩ := by
          rintro rfl
          rw [hfresh] at ht'
          cases ht'
        refine ⟨t', ?_, hvid⟩
        rw [alLookup_alInsert_ne _ _ _ _ hkne]
        exact ht'
      · exact (hS _ hm).2
  · intro q hq
    rcases (mem_alInsert_iff _ _ _ _ n1).mp hq with rfl | ⟨hm, hne⟩
    · refine ⟨_, alLookup_alInsert_self _ _ _, ?_⟩
      simp
    · rcases hT _ hm with ⟨ks, hks, hqin⟩
      by_cases hv : q.2.validationID = t.validationID
      · rw [hv]
        refine ⟨_, alLookup_alInsert_self _ _ _, ?_⟩
        rw [hv] at hks
        rw [hks]
        simp only [Option.getD_some]
        exact List.mem_append_left _ hqin
      · refine ⟨ks, ?_, hqin⟩
        rw [alLookup_alInsert_ne _ _ _ _ hv]
        exact hks

theorem tokenKey_filter_eq (ks : List TokenKey) (value : String) (typ : TokenType) :
    (ks.filter fun k => decide (k.value ≠ value) || decide (k.typ ≠ typ)) =
      ks.filter fun k => decide (k ≠ (⟨value, typ⟩ : TokenKey)) := by
  apply List.filter_congr
  intro k _
  rcases k with ⟨v1, t1⟩
  by_cases h1 : v1 = value <;> by_cases h2 : t1 = typ <;>
    simp [h1, h2, TokenKey.mk.injEq]

theorem mem_filter_ne_iff (ks : List TokenKey) (key k : TokenKey) :
    k ∈ ks.filter (fun x => decide (x ≠ key)) ↔ k ∈ ks ∧ k ≠ key := by
  simp [List.mem_filter]

theorem invB_delete (s : MemState) (value : String) (typ : TokenType)
    (hinv : s.invB = true) : (Memory.delete s value typ).1.invB = true := by
  rcases (invB_eq_true_iff s).mp hinv with ⟨n1, n2, hS, hT⟩
  cases hlk : alLookup s.tokens ⟨value, typ⟩ with
  | none => simpa [Memory.delete, hlk] using hinv
  | some t =>
  cases hidx : alLookup s.validationID t.validationID with
  | none =>
    simp only [Memory.delete, hlk, hidx]
    rw [invB_eq_true_iff]
    have hvid_not : t.validationID ∉ s.validationID.map Prod.fst :=
      (alLookup_eq_none_iff _ _).mp hidx
    refine ⟨?_, n2, ?_, ?_⟩
    · rw [map_fst_alErase]
      exact n1.filter _
    · intro p hp
      have hpne : p.1 ≠ t.validationID := by
        rintro hfst
        exact hvid_not (hfst ▸ List.mem_map.mpr ⟨p, hp, rfl⟩)
      constructor
      · intro k hk
        rcases (hS p hp).1 k hk with ⟨t', ht', hvid⟩
        have hkne : k ≠ (⟨value, typ⟩ : TokenKey) := by
          rintro rfl
          rw [hlk] at ht'
          cases ht'
          exact hpne hvid.symm
        refine ⟨t', ?_, hvid⟩
        rw [alLookup_alErase_ne _ _ _ hkne]
        exact ht'
      · exact (hS p hp).2
    · intro q hq
      rcases (mem_alErase _ _ _).mp hq with ⟨hm, _⟩
      exact hT _ hm
  | some ks =>
  have hmemidx := mem_of_alLookup_eq_some _ _ _ hidx
  have hvid_mem : t.validationID ∈ s.validationID.map Prod.fst :=
    List.mem_map.mpr ⟨_, hmemidx, rfl⟩
  simp only [Memory.delete, hlk, hidx, tokenKey_filter_eq]
  by_cases hlen :
      (ks.filter fun k => decide (k ≠ (⟨value, typ⟩ : TokenKey))).length > 0
  · rw [if_pos hlen, invB_eq_true_iff]
    refine ⟨?_, ?_, ?_, ?_⟩
    · rw [map_fst_alErase]
      exact n1.filter _
    · rw [map_fst_alInsert, if_pos hvid_mem]
      exact n2
    · intro p hp
      rcases (mem_alInsert_iff _ _ _ _ n2).mp hp with rfl | ⟨hm, hne⟩
      · constructor
        · intro k hk
          rcases (mem_filter_ne_iff _ _ _).mp hk with ⟨hk0, hkne⟩
          rcases (hS _ hmemidx).1 k hk0 with ⟨t', ht', hvid⟩
          refine ⟨t', ?_, hvid⟩
          rw [alLookup_alErase_ne _ _ _ hkne]
          exact ht'
        · exact ((hS _ hmemidx).2).filter _
      · constructor
        · intro k hk
          rcases (hS _ hm).1 k hk with ⟨t', ht', hvid⟩
          have hkne : k ≠ (⟨value, typ⟩ : TokenKey) := by
            rintro rfl
            rw [hlk] at ht'
            cases ht'
            exact hne hvid.symm
          refine ⟨t', ?_, hvid⟩
          rw [alLookup_alErase_ne _ _ _ hkne]
          exact ht'
        · exact (hS _ hm).2
    · intro q hq
      rcases (mem_alErase _ _ _).mp hq with ⟨hm, hqne⟩
      rcases hT _ hm with ⟨ks', hks', hqin⟩
      by_cases hv : q.2.validationID = t.validationID
      · rw [hv] at hks' ⊢
        rw [hidx] at hks'
        cases hks'
        refine ⟨_, alLookup_alInsert_self _ _ _, ?_⟩
        exact (mem_filter_ne_iff _ _ _).mpr ⟨hqin, hqne⟩
      · refine ⟨ks', ?_, hqin⟩
        rw [alLookup_alInsert_ne _ _ _ _ hv]
        exact hks'
  · rw [if_neg hlen, invB_eq_true_iff]
    have hempty : (ks.filter fun k => decide (k ≠ (⟨value, typ⟩ : TokenKey))) = [] := by
      rcases h : ks.filter fun k => decide (k ≠ (⟨value, typ⟩ : TokenKey)) with _ | ⟨a, l⟩
      · rfl
      · exact absurd (h ▸ Nat.succ_pos _) hlen
    refine ⟨?_, ?_, ?_, ?_⟩
    · rw [map_fst_alErase]
      exact n1.filter _
    · rw [map_fst_alErase]
      exact n2.filter _
    · intro p hp
      rcases (mem_alErase _ _ _).mp hp with ⟨hm, hne⟩
      constructor
      · intro k hk
        rcases (hS _ hm).1 k hk with ⟨t', ht', hvid⟩
        have hkne : k ≠ (⟨value, typ⟩ : TokenKey) := by
          rintro rfl
          rw [hlk] at ht'
          cases ht'
          exact hne hvid.symm
        refine ⟨t', ?_, hvid⟩
        rw [alLookup_alErase_ne _ _ _ hkne]
        exact ht'
      · exact (hS _ hm).2
    · intro q hq
      rcases (mem_alErase _ _ _).mp hq with ⟨hm, hqne⟩
      rcases hT _ hm with ⟨ks', hks', hqin⟩
      by_cases hv : q.2.validationID = t.validationID
      · rw [hv] at hks'
        rw [hidx] at hks'
        cases hks'
        exact absurd ((mem_filter_ne_iff _ _ _).mpr ⟨hqin, hqne⟩)
          (by rw [hempty]; exact List.not_mem_nil _)
      · refine ⟨ks', ?_, hqin⟩
        rw [alLookup_alErase_ne _ _ _ hv]
        exact hks'

theorem invB_deleteByValidationID (s : MemState) (validationID : String)
    (hinv : s.invB = true) :
    (Memory.deleteByValidationID s validationID).1.invB = true := by
  rcases (invB_eq_true_iff s).mp hinv with ⟨n1, n2, hS, hT⟩
  by_cases hempty : validationID = ""
  · simpa [Memory.deleteByValidationID, hempty] using hinv
  cases hidx : alLookup s.validationID validationID with
  | none => simpa [Memory.deleteByValidationID, hempty, hidx] using hinv
  | some ks =>
  have hmemidx := mem_of_alLookup_eq_some _ _ _ hidx
  rw [Memory.deleteByValidationID, if_neg hempty]
  simp only [hidx]
  rw [invB_eq_true_iff]
  refine ⟨?_, ?_, ?_, ?_⟩
  · exact map_fst_nodup_foldl_alErase _ _ n1
  · rw [map_fst_alErase]
    exact n2.filter _
  · intro p hp
    rcases (mem_alErase _ _ _).mp hp with ⟨hm, hne⟩
    constructor
    · intro k hk
      rcases (hS _ hm).1 k hk with ⟨t', ht', hvid⟩
      have hknot : k ∉ ks := by
        intro hkks
        rcases (hS _ hmemidx).1 k hkks with ⟨t'', ht'', hvid2⟩
        rw [ht'] at ht''
        cases ht''
        exact hne (hvid ▸ hvid2 ▸ rfl)
      refine ⟨t', ?_, hvid⟩
      rw [alLookup_foldl_alErase, if_neg hknot]
      exact ht'
    · exact (hS _ hm).2
  · intro q hq
    rcases (mem_foldl_alErase _ _ _).mp hq with ⟨hm, hqnot⟩
    rcases hT _ hm with ⟨ks', hks', hqin⟩
    have hv : q.2.validationID ≠ validationID := by
      rintro hv
      rw [hv, hidx] at hks'
      cases hks'
      exact hqnot hqin
    refine ⟨ks', ?_, hqin⟩
    rw [alLookup_alErase_ne _ _ _ hv]
    exact hks'

theorem retrieve_state_of_okOp (s : MemState) (now : Nat) (value : String)
    (typ : TokenType) (hok : s.okOp (.retrieve now value typ) = true) :
    (Memory.retrieve s now value typ).1 = s := by
  cases hlk : alLookup s.tokens ⟨value, typ⟩ with
  | none => simp [Memory.retrieve, hlk]
  | some t =>
    simp only [MemState.okOp, hlk, optHolds, Bool.not_eq_true'] at hok
    simp [Memory.retrieve, hlk, hok]

theorem invB_applyOp (s : MemState) (o : MemOp) (hinv : s.invB = true)
    (hok : s.okOp o = true) : (s.applyOp o).invB = true := by
  cases o with
  | store ot =>
    cases ot with
    | none => simpa [MemState.applyOp, Memory.store, Validate] using hinv
    | some t =>
      simp only [MemState.okOp, Option.isNone_iff_eq_none] at hok
      exact invB_store s t hok hinv
  | retrieve now value typ =>
    rw [MemState.applyOp, retrieve_state_of_okOp s now value typ hok]
    exact hinv
  | delete value typ => exact invB_delete s value typ hinv
  | deleteByValidationID validationID =>
    exact invB_deleteByValidationID s validationID hinv

theorem invB_run (s : MemState) (ops : List MemOp) (hinv : s.invB = true)
    (hok : MemState.okSeq s ops = true) : (MemState.run s ops).invB = true := by
  induction ops generalizing s with
  | nil => simpa [MemState.run] using hinv
  | cons o os ih =>
    rw [MemState.okSeq, Bool.and_eq_true] at hok
    rw [MemState.run]
    exact ih _ (invB_applyOp s o hinv hok.1) hok.2

theorem indexConsistentB_of_invB (s : MemState) (hinv : s.invB = true) :
    s.indexConsistentB = true := by
  rcases (invB_eq_true_iff s).mp hinv with ⟨_, _, hS, _⟩
  simp only [MemState.indexConsistentB, List.all_eq_true, Bool.and_eq_true,
    decide_eq_true_eq]
  intro p hp
  refine ⟨?_, (hS p hp).2⟩
  intro k hk
  rcases (hS p hp).1 k hk with ⟨t, ht, _⟩
  rw [ht]
  rfl

/-! ### Generator and manager lemmas -/

theorem string_ne_empty_data_length {s : String} (h : s ≠ "") :
    s.data.length ≠ 0 := by
  intro hl
  exact h (by cases s; simp_all [List.length_eq_zero])

theorem generator_charset_preserved (opts : List GenOption) (g : Generator)
    (h : g.codeCharset ≠ "") : (g.applyOptions opts).codeCharset ≠ "" := by
  induction opts generalizing g with
  | nil => exact h
  | cons o os ih =>
    rw [Generator.applyOptions]
    cases o with
    | withLinkTokenLength n =>
      exact ih _ h
    | withCodeTokenLength n =>
      exact ih _ h
    | withCodeCharset cs =>
      by_cases hc : cs = ""
      · apply ih
        simpa [Generator.applyOption, Generator.withCodeCharset, hc] using h
      · apply ih
        simpa [Generator.applyOption, Generator.withCodeCharset, hc] using hc

theorem createToken_ok (m : Manager) (s : MemState) (now : Nat)
    (genValue : String) (tokenType : TokenType) (validationID : String)
    (ttl : Int) (hvid : validationID ≠ "") (hgen : genValue ≠ "")
    (httl : 0 < ttl) :
    m.createToken s now genValue tokenType validationID ttl =
      ((Memory.store s (some (Token.new genValue tokenType validationID now ttl))).1,
        .ok (Token.new genValue tokenType validationID now ttl)) := by
  have hvu : (Token.new genValue tokenType validationID now ttl).validUntil ≠ 0 := by
    simp only [Token.new]
    intro h
    have := Int.toNat_eq_zero.mp h
    omega
  have hval :
      Validate (some (Token.new genValue tokenType validationID now ttl)) = none := by
    simp only [Validate, Token.new] at hvu ⊢
    rw [if_neg hgen, if_neg hvid, if_neg hvu]
  rw [Manager.createToken, if_neg hvid, if_neg (not_le.mpr httl)]
  simp only [Memory.store, hval]

theorem token_new_validUntil (genValue : String) (tokenType : TokenType)
    (validationID : String) (now : Nat) (ttl : Int) (httl : 0 < ttl) :
    ((Token.new genValue tokenType validationID now ttl).validUntil : Int) =
      ((Token.new genValue tokenType validationID now ttl).createdAt : Int) + ttl := by
  simp only [Token.new]
  omega

/-! ### Claim theorems -/

/-- C8: a manager built by `NewManager` without TTL options creates LINK
tokens with `ValidUntil = CreatedAt + 24h` and CODE tokens with
`ValidUntil = CreatedAt + 10m`, and in general `CreateTokenWithTTL` yields
`ValidUntil = CreatedAt + ttl` for every positive TTL, whatever the store
state, the call instant and the generated value. -/
theorem spec_C8 (s : MemState) (now : Nat) (genValue validationID : String)
    (hvid : validationID ≠ "") (hgen : genValue ≠ "") :
    (∃ s₁ t₁, NewManager.createLinkToken s now genValue validationID =
        (s₁, .ok t₁) ∧ t₁.type = .link ∧
        (t₁.validUntil : Int) = (t₁.createdAt : Int) + 24 * hourNs) ∧
    (∃ s₂ t₂, NewManager.createCodeToken s now genValue validationID =
        (s₂, .ok t₂) ∧ t₂.type = .code ∧
        (t₂.validUntil : Int) = (t₂.createdAt : Int) + 10 * minuteNs) ∧
    ∀ (tokenType : TokenType) (ttl : Int), 0 < ttl →
      ∃ s₃ t₃, NewManager.createTokenWithTTL s now genValue tokenType
          validationID ttl = (s₃, .ok t₃) ∧
        (t₃.validUntil : Int) = (t₃.createdAt : Int) + ttl := by
  have hlink : (0 : Int) < 24 * hourNs := by norm_num [hourNs]
  have hcode : (0 : Int) < 10 * minuteNs := by norm_num [minuteNs]
  refine ⟨?_, ?_, ?_⟩
  · rw [Manager.createLinkToken,
      show NewManager.linkTokenTTL = 24 * hourNs from rfl,
      createToken_ok NewManager s now genValue .link validationID _ hvid hgen hlink]
    exact ⟨_, _, rfl, rfl, token_new_validUntil genValue .link validationID now _ hlink⟩
  · rw [Manager.createCodeToken,
      show NewManager.codeTokenTTL = 10 * minuteNs from rfl,
      createToken_ok NewManager s now genValue .code validationID _ hvid hgen hcode]
    exact ⟨_, _, rfl, rfl, token_new_validUntil genValue .code validationID now _ hcode⟩
  · intro tokenType ttl httl
    rw [Manager.createTokenWithTTL,
      createToken_ok NewManager s now genValue tokenType validationID ttl hvid hgen httl]
    exact ⟨_, _, rfl, token_new_validUntil genValue tokenType validationID now ttl httl⟩

/-- Witness for C8 at a concrete store, instant, value and owner. -/
theorem spec_C8_witness :
    (∃ s₁ t₁, NewManager.createLinkToken MemState.empty 0 "v" "id" =
        (s₁, .ok t₁) ∧ t₁.type = .link ∧
        (t₁.validUntil : Int) = (t₁.createdAt : Int) + 24 * hourNs) ∧
    (∃ s₂ t₂, NewManager.createCodeToken MemState.empty 0 "v" "id" =
        (s₂, .ok t₂) ∧ t₂.type = .code ∧
        (t₂.validUntil : Int) = (t₂.createdAt : Int) + 10 * minuteNs) ∧
    ∀ (tokenType : TokenType) (ttl : Int), 0 < ttl →
      ∃ s₃ t₃, NewManager.createTokenWithTTL MemState.empty 0 "v" tokenType
          "id" ttl = (s₃, .ok t₃) ∧
        (t₃.validUntil : Int) = (t₃.createdAt : Int) + ttl :=
  spec_C8 MemState.empty 0 "v" "id" (by decide) (by decide)

/-- C9: for a generator whose charset is non-empty, `GenerateCodeToken` maps
an outcome of the random byte source with one byte per configured code
character to a code of exactly that length whose i-th character is the
charset entry at index `byte_i mod |charset|`; every character of the code
lies in the charset. -/
theorem spec_C9 (g : Generator) (randBytes : List Nat)
    (hcs : g.codeCharset ≠ "")
    (hlen : (randBytes.length : Int) = g.codeTokenLength)
    (hbytes : ∀ b ∈ randBytes, b < 256) :
    ∃ code : String,
      g.generateCodeToken randBytes = some code ∧
      (code.data.length : Int) = g.codeTokenLength ∧
      (∀ i (h : i < code.data.length),
        code.data.get ⟨i, h⟩ =
          g.codeCharset.data.getD
            (randBytes.getD i 0 % g.codeCharset.data.length) default) ∧
      ∀ c ∈ code.data, c ∈ g.codeCharset.data := by
  have hl0 : g.codeCharset.data.length ≠ 0 := string_ne_empty_data_length hcs
  refine ⟨String.mk (randBytes.map fun b =>
    g.codeCharset.data.getD (b % g.codeCharset.data.length) default), ?_, ?_, ?_, ?_⟩
  · rw [Generator.generateCodeToken]
    simp only [if_neg hl0]
  · simpa using hlen
  · intro i h
    have hi : i < randBytes.length := by simpa using h
    show (randBytes.map fun b =>
        g.codeCharset.data.getD (b % g.codeCharset.data.length) default).get ⟨i, h⟩ = _
    rw [List.get_map, ← List.getD_eq_get randBytes 0 hi]
  · intro c hc
    rcases List.mem_map.mp hc with ⟨b, _, rfl⟩
    rw [List.getD_eq_get _ _ (Nat.mod_lt _ (Nat.pos_of_ne_zero hl0))]
    exact List.get_mem _ _ _

/-- Witness for C9 at the default generator and a concrete byte outcome. -/
theorem spec_C9_witness :
    ∃ code : String,
      NewGenerator.generateCodeToken [7, 58, 200, 255] = some code ∧
      (code.data.length : Int) = NewGenerator.codeTokenLength ∧
      (∀ i (h : i < code.data.length),
        code.data.get ⟨i, h⟩ =
          NewGenerator.codeCharset.data.getD
            (([7, 58, 200, 255].getD i 0) % NewGenerator.codeCharset.data.length)
            default) ∧
      ∀ c ∈ code.data, c ∈ NewGenerator.codeCharset.data :=
  spec_C9 NewGenerator [7, 58, 200, 255] (by decide) (by decide) (by decide)

/-- C10: `WithCodeCharset("")` is a no-op, so a generator constructed by
`NewGenerator` and reconfigured by any sequence of functional options keeps
a non-empty code charset, and `GenerateCodeToken` never reaches the
division by zero in `int(b) % charsetLength` (it always returns a code). -/
theorem spec_C10 (opts : List GenOption) (randBytes : List Nat) :
    NewGenerator.withCodeCharset "" = NewGenerator ∧
    (NewGenerator.applyOptions opts).codeCharset ≠ "" ∧
    ((NewGenerator.applyOptions opts).generateCodeToken randBytes).isSome = true := by
  have hcs : (NewGenerator.applyOptions opts).codeCharset ≠ "" :=
    generator_charset_preserved opts NewGenerator (by decide)
  refine ⟨rfl, hcs, ?_⟩
  rw [Generator.generateCodeToken]
  simp only [if_neg (string_ne_empty_data_length hcs), Option.isSome_some]

theorem alErase_eq_of_lookup_none {α β : Type} [DecidableEq α]
    (l : List (α × β)) (a : α) (h : alLookup l a = none) : alErase l a = l := by
  induction l with
  | nil => rfl
  | cons q rest ih =>
    obtain ⟨k, v⟩ := q
    by_cases hk : k = a
    · rw [alLookup, if_pos hk] at h
      cases h
    · rw [alLookup, if_neg hk] at h
      rw [alErase, if_neg hk, ih h]

theorem memory_delete_absent (s : MemState) (value : String) (typ : TokenType)
    (h : alLookup s.tokens ⟨value, typ⟩ = none) :
    Memory.delete s value typ = (s, none) := by
  simp [Memory.delete, h]

theorem memory_dbv_absent (s : MemState) (vid : String) (h1 : vid ≠ "")
    (h2 : alLookup s.validationID vid = none) :
    Memory.deleteByValidationID s vid = (s, none) := by
  rw [Memory.deleteByValidationID, if_neg h1]
  simp [h2]

theorem memory_delete_key_gone (s : MemState) (value : String) (typ : TokenType) :
    alLookup (Memory.delete s value typ).1.tokens ⟨value, typ⟩ = none ∧
    (Memory.delete s value typ).2 = none := by
  cases hlk : alLookup s.tokens ⟨value, typ⟩ with
  | none => simp [Memory.delete, hlk]
  | some t =>
    cases hidx : alLookup s.validationID t.validationID with
    | none => simp [Memory.delete, hlk, hidx, alLookup_alErase_self]
    | some ks =>
      simp only [Memory.delete, hlk, hidx]
      split <;> simp [alLookup_alErase_self]

theorem memory_dbv_vid_gone (s : MemState) (vid : String) (h : vid ≠ "") :
    alLookup (Memory.deleteByValidationID s vid).1.validationID vid = none ∧
    (Memory.deleteByValidationID s vid).2 = none := by
  rw [Memory.deleteByValidationID, if_neg h]
  cases hidx : alLookup s.validationID vid with
  | none => simp [hidx]
  | some ks => simp [alLookup_alErase_self]

/-- C2: the backends are not observationally equivalent: storing, at instant
5, a token built with TTL −1ns (set but already past `validUntil`) succeeds
and persists on the in-memory backend while the Redis backend rejects it
with `ErrInvalidToken` and stays empty — the same single-call sequence
yields different error kinds. -/
theorem spec_C2 :
    (Memory.store MemState.empty (some (Token.new "v" .link "id" 5 (-1)))).2 =
      none ∧
    alLookup (Memory.store MemState.empty
        (some (Token.new "v" .link "id" 5 (-1)))).1.tokens ⟨"v", .link⟩ =
      some (Token.new "v" .link "id" 5 (-1)) ∧
    Redis.store RedisState.empty 5 (some (Token.new "v" .link "id" 5 (-1))) =
      (RedisState.empty, some .invalidToken) ∧
    (none : Option StorageError) ≠ some .invalidToken := by
  refine ⟨rfl, ?_, rfl, by decide⟩
  rfl

/-- C3: evaluation at the failing input: the in-memory storage holds the
CODE token ("v", CODE, validUntil 4, owner "id"); `Retrieve("v", CODE)` at
instant 5 purges the record from the token map but reports a
`TokenExpiredError` whose type field is `TypeLink`, not the token's kind
CODE (memory.go:111 omits the `TokenType` field).  The older package-token
`MemoryStorage.Retrieve` reports the kind correctly on the same state,
showing the omission is a slip. -/
theorem spec_C3 :
    (Memory.store MemState.empty (some ⟨"v", .code, 1, 4, "id"⟩)).2 = none ∧
    (Memory.retrieve (Memory.store MemState.empty
        (some ⟨"v", .code, 1, 4, "id"⟩)).1 5 "v" .code).2 =
      .error (.expired "v" .link 4) ∧
    StorageError.expired "v" .link 4 ≠ .expired "v" .code 4 ∧
    alLookup (Memory.retrieve (Memory.store MemState.empty
        (some ⟨"v", .code, 1, 4, "id"⟩)).1 5 "v" .code).1.tokens ⟨"v", .code⟩ =
      none ∧
    (MemoryStorage.retrieve (Memory.store MemState.empty
        (some ⟨"v", .code, 1, 4, "id"⟩)).1 5 "v" .code).2 =
      .error (.expired "v" .code 4) := by
  exact ⟨rfl, rfl, by decide, rfl, rfl⟩

/-- Counterexample to C1 as stated: the in-memory Store accepts (and
persists) a token whose `validUntil` is set but already past — a token
built with TTL −1ns at instant 5 — and rejects an empty value with the
`ErrEmptyTokenValue` kind, which is not the `InvalidToken` kind. -/
theorem spec_C1_counterexample :
    (Memory.store MemState.empty (some (Token.new "v" .link "id" 5 (-1)))).2 =
      none ∧
    alLookup (Memory.store MemState.empty
        (some (Token.new "v" .link "id" 5 (-1)))).1.tokens ⟨"v", .link⟩ =
      some (Token.new "v" .link "id" 5 (-1)) ∧
    Memory.store MemState.empty (some ⟨"", .link, 1, 9, "id"⟩) =
      (MemState.empty, some .emptyTokenValue) ∧
    StorageError.emptyTokenValue ≠ .invalidToken := by
  exact ⟨rfl, rfl, rfl, by decide⟩

/-- C1 (amended): both current storage implementations reject, without
persisting anything, an empty value (`ErrEmptyTokenValue`), an empty
validation ID (`ErrEmptyValidationID`) and an unset `validUntil`
(`ErrInvalidToken`); the Redis-backed Store additionally rejects with
`ErrInvalidToken` a `validUntil` strictly before the call instant — hence
every token built with negative TTL — while the in-memory Store accepts any
token whose `validUntil` is set, even if already past. -/
theorem spec_C1 :
    (∀ (s : MemState) (t : Token), t.value = "" →
      Memory.store s (some t) = (s, some .emptyTokenValue)) ∧
    (∀ (s : MemState) (t : Token), t.value ≠ "" → t.validationID = "" →
      Memory.store s (some t) = (s, some .emptyValidationID)) ∧
    (∀ (s : MemState) (t : Token), t.value ≠ "" → t.validationID ≠ "" →
      t.validUntil = 0 → Memory.store s (some t) = (s, some .invalidToken)) ∧
    (∀ (s : RedisState) (now : Nat) (t : Token), t.value = "" →
      Redis.store s now (some t) = (s, some .emptyTokenValue)) ∧
    (∀ (s : RedisState) (now : Nat) (t : Token), t.value ≠ "" →
      t.validationID = "" →
      Redis.store s now (some t) = (s, some .emptyValidationID)) ∧
    (∀ (s : RedisState) (now : Nat) (t : Token), t.value ≠ "" →
      t.validationID ≠ "" → t.validUntil = 0 →
      Redis.store s now (some t) = (s, some .invalidToken)) ∧
    (∀ (s : RedisState) (now : Nat) (t : Token), t.value ≠ "" →
      t.validationID ≠ "" → t.validUntil < now →
      Redis.store s now (some t) = (s, some .invalidToken)) ∧
    (∀ (s : RedisState) (now : Nat) (value vid : String) (typ : TokenType)
        (ttl : Int), value ≠ "" → vid ≠ "" → ttl < 0 →
      Redis.store s now (some (Token.new value typ vid now ttl)) =
        (s, some .invalidToken)) ∧
    ∀ (s : MemState) (t : Token), t.value ≠ "" → t.validationID ≠ "" →
      t.validUntil ≠ 0 → (Memory.store s (some t)).2 = none := by
  have hmem_val : ∀ (s : MemState) (e : StorageError) (t : Token),
      Validate (some t) = some e → Memory.store s (some t) = (s, some e) := by
    intro s e t hv
    simp [Memory.store, hv]
  have hred_val : ∀ (s : RedisState) (now : Nat) (e : StorageError) (t : Token),
      Validate (some t) = some e → Redis.store s now (some t) = (s, some e) := by
    intro s now e t hv
    simp [Redis.store, hv]
  refine ⟨?_, ?_, ?_, ?_, ?_, ?_, ?_, ?_, ?_⟩
  · intro s t h
    exact hmem_val s _ t (by simp [Validate, h])
  · intro s t h1 h2
    exact hmem_val s _ t (by simp [Validate, h1, h2])
  · intro s t h1 h2 h3
    exact hmem_val s _ t (by simp [Validate, h1, h2, h3])
  · intro s now t h
    exact hred_val s now _ t (by simp [Validate, h])
  · intro s now t h1 h2
    exact hred_val s now _ t (by simp [Validate, h1, h2])
  · intro s now t h1 h2 h3
    exact hred_val s now _ t (by simp [Validate, h1, h2, h3])
  · intro s now t h1 h2 h3
    by_cases hz : t.validUntil = 0
    · exact hred_val s now _ t (by simp [Validate, h1, h2, hz])
    · have hv : Validate (some t) = none := by
        simp [Validate, h1, h2, hz]
      simp [Redis.store, hv, h3]
  · intro s now value vid typ ttl h1 h2 h3
    by_cases hz : (Token.new value typ vid now ttl).validUntil = 0
    · apply hred_val
      simp only [Validate]
      rw [if_neg (show ¬(Token.new value typ vid now ttl).value = "" from h1),
        if_neg (show ¬(Token.new value typ vid now ttl).validationID = "" from h2),
        if_pos hz]
    · have hlt : (Token.new value typ vid now ttl).validUntil < now := by
        have heq : (Token.new value typ vid now ttl).validUntil =
            ((now : Int) + ttl).toNat := rfl
        omega
      have hv : Validate (some (Token.new value typ vid now ttl)) = none := by
        simp only [Validate]
        rw [if_neg (show ¬(Token.new value typ vid now ttl).value = "" from h1),
          if_neg (show ¬(Token.new value typ vid now ttl).validationID = "" from h2),
          if_neg hz]
      simp [Redis.store, hv, hlt]
  · intro s t h1 h2 h3
    have hv : Validate (some t) = none := by
      simp [Validate, h1, h2, h3]
    simp [Memory.store, hv]

/-- Witness for C1 at concrete stores and tokens. -/
theorem spec_C1_witness :
    Memory.store MemState.empty (some ⟨"", .link, 0, 5, "id"⟩) =
      (MemState.empty, some .emptyTokenValue) ∧
    Memory.store MemState.empty (some ⟨"v", .code, 0, 0, "id"⟩) =
      (MemState.empty, some .invalidToken) ∧
    Redis.store RedisState.empty 9
        (some (Token.new "v" .code "id" 9 (-2))) =
      (RedisState.empty, some .invalidToken) ∧
    (Memory.store MemState.empty (some ⟨"v", .link, 9, 7, "id"⟩)).2 = none :=
  ⟨spec_C1.1 MemState.empty _ rfl,
   spec_C1.2.2.1 MemState.empty _ (by decide) (by decide) rfl,
   spec_C1.2.2.2.2.2.2.2.1 RedisState.empty 9 "v" "id" .code (-2)
     (by decide) (by decide) (by decide),
   spec_C1.2.2.2.2.2.2.2.2 MemState.empty _ (by decide) (by decide) (by decide)⟩

/-- Counterexample to C6 as stated: the package-token `MemoryStorage`
implementation returns no error at all for the empty validation ID. -/
theorem spec_C6_counterexample :
    MemoryStorage.deleteByValidationID MemState.empty "" =
      (MemState.empty, none) ∧
    (none : Option StorageError) ≠ some .emptyValidationID := by
  exact ⟨rfl, by decide⟩

/-- C6 (amended): the storage/memory, storage/redis and package-token
`RedisStorage` implementations fail with `ErrEmptyValidationID` on an empty
owner and leave the store unchanged; the package-token `MemoryStorage`
instead returns no error, and — since `Store` never indexes an empty
validation ID — also leaves the store unchanged. -/
theorem spec_C6 :
    (∀ s : MemState,
      Memory.deleteByValidationID s "" = (s, some .emptyValidationID)) ∧
    (∀ (s : RedisState) (now : Nat),
      Redis.deleteByValidationID s now "" = (s, some .emptyValidationID)) ∧
    (∀ (s : RedisState) (now : Nat),
      RedisStorage.deleteByValidationID s now "" =
        (s, some .emptyValidationID)) ∧
    ∀ s : MemState, alLookup s.validationID "" = none →
      MemoryStorage.deleteByValidationID s "" = (s, none) := by
  refine ⟨?_, ?_, ?_, ?_⟩
  · intro s
    simp [Memory.deleteByValidationID]
  · intro s now
    simp [Redis.deleteByValidationID]
  · intro s now
    simp [RedisStorage.deleteByValidationID]
  · intro s h
    simp [MemoryStorage.deleteByValidationID, h]

/-- Witness for C6 at the empty stores. -/
theorem spec_C6_witness :
    Memory.deleteByValidationID MemState.empty "" =
      (MemState.empty, some .emptyValidationID) ∧
    Redis.deleteByValidationID RedisState.empty 3 "" =
      (RedisState.empty, some .emptyValidationID) ∧
    MemoryStorage.deleteByValidationID MemState.empty "" =
      (MemState.empty, none) :=
  ⟨spec_C6.1 MemState.empty, spec_C6.2.1 RedisState.empty 3,
   spec_C6.2.2.2 MemState.empty rfl⟩

/-- Counterexample to C7 as stated: the empty owner has no stored tokens,
yet `DeleteByValidationID("")` returns the `ErrEmptyValidationID` error
rather than no error. -/
theorem spec_C7_counterexample :
    (Memory.deleteByValidationID MemState.empty "").2 =
      some .emptyValidationID ∧
    some StorageError.emptyValidationID ≠ (none : Option StorageError) := by
  exact ⟨rfl, by decide⟩

/-- C7 (amended): `Delete` on an absent key and `DeleteByValidationID` on a
non-empty owner with no index entry return no error and leave the store
unchanged (on the empty owner it errs with `ErrEmptyValidationID`, still
changing nothing), and calling either operation twice in succession with
the same arguments produces the same final state and the same result as
calling it once. -/
theorem spec_C7 (s : MemState) (value : String) (typ : TokenType)
    (vid : String) :
    (alLookup s.tokens ⟨value, typ⟩ = none →
      Memory.delete s value typ = (s, none)) ∧
    (vid ≠ "" → alLookup s.validationID vid = none →
      Memory.deleteByValidationID s vid = (s, none)) ∧
    Memory.deleteByValidationID s "" = (s, some .emptyValidationID) ∧
    Memory.delete (Memory.delete s value typ).1 value typ =
      Memory.delete s value typ ∧
    Memory.deleteByValidationID (Memory.deleteByValidationID s vid).1 vid =
      Memory.deleteByValidationID s vid := by
  refine ⟨memory_delete_absent s value typ, memory_dbv_absent s vid, ?_, ?_, ?_⟩
  · simp [Memory.deleteByValidationID]
  · obtain ⟨h1, h2⟩ := memory_delete_key_gone s value typ
    rw [memory_delete_absent _ _ _ h1, ← h2]
  · by_cases hvid : vid = ""
    · subst hvid
      have h : Memory.deleteByValidationID s "" = (s, some .emptyValidationID) := by
        simp [Memory.deleteByValidationID]
      rw [h]
      exact h
    · obtain ⟨h1, h2⟩ := memory_dbv_vid_gone s vid hvid
      rw [memory_dbv_absent _ _ hvid h1, ← h2]

/-- Witness for C7 at a concrete store, key and owner. -/
theorem spec_C7_witness :
    Memory.delete MemState.empty "v" .link = (MemState.empty, none) ∧
    Memory.deleteByValidationID MemState.empty "A" = (MemState.empty, none) ∧
    Memory.deleteByValidationID MemState.empty "" =
      (MemState.empty, some .emptyValidationID) ∧
    Memory.delete (Memory.delete MemState.empty "v" .link).1 "v" .link =
      Memory.delete MemState.empty "v" .link ∧
    Memory.deleteByValidationID
        (Memory.deleteByValidationID MemState.empty "A").1 "A" =
      Memory.deleteByValidationID MemState.empty "A" :=
  ⟨(spec_C7 MemState.empty "v" .link "A").1 rfl,
   (spec_C7 MemState.empty "v" .link "A").2.1 (by decide) rfl,
   (spec_C7 MemState.empty "v" .link "A").2.2.1,
   (spec_C7 MemState.empty "v" .link "A").2.2.2.1,
   (spec_C7 MemState.empty "v" .link "A").2.2.2.2⟩

/-- Counterexample to C4 as stated: the lazy purge inside `Retrieve` leaves
the purged key dangling in the owner index, and re-storing an existing key
duplicates it in the index — the index-consistency property fails on both
runs. -/
theorem spec_C4_counterexample :
    (MemState.run MemState.empty
        [.store (some ⟨"v", .code, 1, 4, "A"⟩),
         .retrieve 5 "v" .code]).indexConsistentB = false ∧
    (MemState.run MemState.empty
        [.store (some ⟨"w", .link, 1, 9, "B"⟩),
         .store (some ⟨"w", .link, 1, 9, "B"⟩)]).indexConsistentB = false := by
  exact ⟨by decide, by decide⟩

/-- C4 (amended): starting from the empty in-memory store, after any
sequence of Store, Retrieve, Delete and DeleteByValidationID calls in which
every Store uses a `(value, type)` key not currently present in the token
map and no Retrieve hits an expired token, every key recorded in the owner
index corresponds to a token present in the token map, and no index entry
holds duplicate keys. -/
theorem spec_C4 (ops : List MemOp)
    (hok : MemState.okSeq MemState.empty ops = true) :
    (MemState.run MemState.empty ops).indexConsistentB = true :=
  indexConsistentB_of_invB _ (invB_run MemState.empty ops (by decide) hok)

/-- Witness for C4 on a concrete call sequence. -/
theorem spec_C4_witness :
    MemState.okSeq MemState.empty
      [.store (some ⟨"v", .link, 1, 10, "A"⟩),
       .store (some ⟨"w", .code, 1, 10, "A"⟩),
       .store (some ⟨"x", .link, 1, 10, "B"⟩),
       .retrieve 2 "v" .link,
       .delete "v" .link,
       .deleteByValidationID "A"] = true ∧
    (MemState.run MemState.empty
      [.store (some ⟨"v", .link, 1, 10, "A"⟩),
       .store (some ⟨"w", .code, 1, 10, "A"⟩),
       .store (some ⟨"x", .link, 1, 10, "B"⟩),
       .retrieve 2 "v" .link,
       .delete "v" .link,
       .deleteByValidationID "A"]).indexConsistentB = true :=
  ⟨by decide,
   spec_C4
     [.store (some ⟨"v", .link, 1, 10, "A"⟩),
      .store (some ⟨"w", .code, 1, 10, "A"⟩),
      .store (some ⟨"x", .link, 1, 10, "B"⟩),
      .retrieve 2 "v" .link,
      .delete "v" .link,
      .deleteByValidationID "A"] (by decide)⟩

/-- Counterexample to C5 as stated: storing ("abc", LINK) under owner "A"
and then ("abc", LINK) under owner "B" (the same composite key), then
calling `DeleteByValidationID("A")`, also destroys the token stored under
the different owner "B": its subsequent Retrieve is `ErrTokenNotFound`. -/
theorem spec_C5_counterexample :
    (Memory.store (Memory.store MemState.empty
        (some ⟨"abc", .link, 1, 100, "A"⟩)).1
        (some ⟨"abc", .link, 1, 100, "B"⟩)).2 = none ∧
    (Memory.deleteByValidationID (Memory.store (Memory.store MemState.empty
        (some ⟨"abc", .link, 1, 100, "A"⟩)).1
        (some ⟨"abc", .link, 1, 100, "B"⟩)).1 "A").2 = none ∧
    (Memory.retrieve (Memory.deleteByValidationID (Memory.store (Memory.store
        MemState.empty (some ⟨"abc", .link, 1, 100, "A"⟩)).1
        (some ⟨"abc", .link, 1, 100, "B"⟩)).1 "A").1 2 "abc" .link).2 =
      .error .tokenNotFound := by
  exact ⟨rfl, rfl, rfl⟩

/-- C5 (amended): on any in-memory state satisfying the index invariant (in
particular any state reached with fresh keys, so no composite key is shared
between owners), `DeleteByValidationID(owner)` succeeds, every stored token
of that owner yields `ErrTokenNotFound` on a subsequent Retrieve, and every
token stored under a different owner gives the same Retrieve result as
before the deletion. -/
theorem spec_C5 (s : MemState) (hinv : s.invB = true) (vid : String)
    (hvid : vid ≠ "") :
    (Memory.deleteByValidationID s vid).2 = none ∧
    ∀ (key : TokenKey) (t : Token), alLookup s.tokens key = some t →
      ((t.validationID = vid → ∀ now : Nat,
        (Memory.retrieve (Memory.deleteByValidationID s vid).1 now
          key.value key.typ).2 = .error .tokenNotFound) ∧
       (t.validationID ≠ vid → ∀ now : Nat,
        (Memory.retrieve (Memory.deleteByValidationID s vid).1 now
          key.value key.typ).2 = (Memory.retrieve s now key.value key.typ).2)) := by
  rcases (invB_eq_true_iff s).mp hinv with ⟨n1, n2, hS, hT⟩
  cases hidx : alLookup s.validationID vid with
  | none =>
    rw [memory_dbv_absent s vid hvid hidx]
    refine ⟨rfl, ?_⟩
    intro key t hkt
    constructor
    · intro hv now
      exfalso
      rcases hT (key, t) (mem_of_alLookup_eq_some _ _ _ hkt) with ⟨ks, hks, _⟩
      have hks2 : alLookup s.validationID t.validationID = some ks := hks
      rw [hv, hidx] at hks2
      cases hks2
    · intro _ now
      rfl
  | some ks =>
    have hms := mem_of_alLookup_eq_some _ _ _ hidx
    have hstate : Memory.deleteByValidationID s vid =
        (⟨ks.foldl (fun ts k => alErase ts k) s.tokens,
          alErase s.validationID vid⟩, none) := by
      rw [Memory.deleteByValidationID, if_neg hvid]
      simp [hidx]
    rw [hstate]
    refine ⟨rfl, ?_⟩
    intro key t hkt
    obtain ⟨kv, kt⟩ := key
    constructor
    · intro hv now
      have hmemkey : (⟨kv, kt⟩ : TokenKey) ∈ ks := by
        rcases hT (⟨kv, kt⟩, t) (mem_of_alLookup_eq_some _ _ _ hkt) with
          ⟨ks', hks', hmem⟩
        have hks2 : alLookup s.validationID t.validationID = some ks' := hks'
        rw [hv, hidx] at hks2
        cases hks2
        exact hmem
      have hnone : alLookup
          (ks.foldl (fun ts k => alErase ts k) s.tokens) ⟨kv, kt⟩ = none := by
        rw [alLookup_foldl_alErase, if_pos hmemkey]
      simp [Memory.retrieve, hnone]
    · intro hv now
      have hnotin : (⟨kv, kt⟩ : TokenKey) ∉ ks := by
        intro hin
        rcases (hS _ hms).1 _ hin with ⟨t', ht', hvid'⟩
        rw [hkt] at ht'
        cases ht'
        exact hv hvid'
      have hsame : alLookup
          (ks.foldl (fun ts k => alErase ts k) s.tokens) ⟨kv, kt⟩ =
          alLookup s.tokens ⟨kv, kt⟩ := by
        rw [alLookup_foldl_alErase, if_neg hnotin]
      simp only [Memory.retrieve, hsame, hkt]
      cases hexp : t.isExpired now <;> simp [hexp]

/-- Witness for C5 on a concrete index-consistent store: two tokens under
owner "A", one under owner "B", then `DeleteByValidationID("A")`. -/
theorem spec_C5_witness :
    (Memory.deleteByValidationID (Memory.store (Memory.store (Memory.store
        MemState.empty (some ⟨"v", .link, 1, 10, "A"⟩)).1
        (some ⟨"w", .code, 1, 10, "A"⟩)).1
        (some ⟨"x", .link, 1, 10, "B"⟩)).1 "A").2 = none ∧
    (Memory.retrieve (Memory.deleteByValidationID (Memory.store (Memory.store
        (Memory.store MemState.empty (some ⟨"v", .link, 1, 10, "A"⟩)).1
        (some ⟨"w", .code, 1, 10, "A"⟩)).1
        (some ⟨"x", .link, 1, 10, "B"⟩)).1 "A").1 2 "v" .link).2 =
      .error .tokenNotFound ∧
    (Memory.retrieve (Memory.deleteByValidationID (Memory.store (Memory.store
        (Memory.store MemState.empty (some ⟨"v", .link, 1, 10, "A"⟩)).1
        (some ⟨"w", .code, 1, 10, "A"⟩)).1
        (some ⟨"x", .link, 1, 10, "B"⟩)).1 "A").1 2 "x" .link).2 =
      (Memory.retrieve (Memory.store (Memory.store (Memory.store
        MemState.empty (some ⟨"v", .link, 1, 10, "A"⟩)).1
        (some ⟨"w", .code, 1, 10, "A"⟩)).1
        (some ⟨"x", .link, 1, 10, "B"⟩)).1 2 "x" .link).2 :=
  ⟨(spec_C5 (Memory.store (Memory.store (Memory.store MemState.empty
      (some ⟨"v", .link, 1, 10, "A"⟩)).1 (some ⟨"w", .code, 1, 10, "A"⟩)).1
      (some ⟨"x", .link, 1, 10, "B"⟩)).1 (by decide) "A" (by decide)).1,
   ((spec_C5 (Memory.store (Memory.store (Memory.store MemState.empty
      (some ⟨"v", .link, 1, 10, "A"⟩)).1 (some ⟨"w", .code, 1, 10, "A"⟩)).1
      (some ⟨"x", .link, 1, 10, "B"⟩)).1 (by decide) "A" (by decide)).2
      ⟨"v", .link⟩ ⟨"v", .link, 1, 10, "A"⟩ rfl).1 rfl 2,
   ((spec_C5 (Memory.store (Memory.store (Memory.store MemState.empty
      (some ⟨"v", .link, 1, 10, "A"⟩)).1 (some ⟨"w", .code, 1, 10, "A"⟩)).1
      (some ⟨"x", .link, 1, 10, "B"⟩)).1 (by decide) "A" (by decide)).2
      ⟨"x", .link⟩ ⟨"x", .link, 1, 10, "B"⟩ rfl).2 (by decide) 2⟩
